import Mathlib

/-!
Verification of the BART data-access module (src/BART/BART.js): the
cache-refresh pipeline and the derived-query engine.  JavaScript numbers
are modelled as real numbers (exact arithmetic), strings as Lean strings
or lists of characters, and the callback interface as an explicit outcome
type.  Cache slots that the source reads through infoCache are passed
explicitly as Option values, none standing for a slot that no refresh has
populated yet.
-/

namespace BART

/-- A station record from the cached station list: abbreviation, display
name, and the gtfs coordinates (parseFloat of the upstream strings). -/
structure Station where
  abbr : String
  name : String
  gtfs_latitude : ℝ
  gtfs_longitude : ℝ

/-- The station-list cache slot payload: res.root.stations, whose field
station holds the array of stations. -/
structure StationList where
  station : List Station

/-- Outcome of calling one of the public query functions: either the
callback is invoked with (err, value), or the function faults with an
uncaught TypeError (dereferencing a field of undefined). -/
inductive JsOutcome (α : Type) where
  | fault
  | calledBack (err : Option String) (val : α)

/-- Degrees to radians: the toRad polyfill (lines 378-382),
x * (Math.PI / 180). -/
noncomputable def toRad (x : ℝ) : ℝ := x * (Real.pi / 180)

/-- JavaScript Math.atan2 on real arguments. -/
noncomputable def atan2 (y x : ℝ) : ℝ :=
  if 0 < x then Real.arctan (y / x)
  else if x < 0 ∧ 0 ≤ y then Real.arctan (y / x) + Real.pi
  else if x < 0 then Real.arctan (y / x) - Real.pi
  else if 0 < y then Real.pi / 2
  else if y < 0 then -(Real.pi / 2)
  else 0

/-- The intermediate value a of getDistance (haversine formula). -/
noncomputable def haverA (latUser lonUser latStation lonStation : ℝ) : ℝ :=
  Real.sin (toRad (latStation - latUser) / 2) * Real.sin (toRad (latStation - latUser) / 2) +
    Real.cos (toRad latStation) * Real.cos (toRad latUser) *
      Real.sin (toRad (lonStation - lonUser) / 2) * Real.sin (toRad (lonStation - lonUser) / 2)

/-- getDistance (lines 62-73): haversine great-circle distance with Earth
radius 6371 km, converted to miles by the factor 0.621371. -/
noncomputable def getDistance (latUser lonUser latStation lonStation : ℝ) : ℝ :=
  6371 *
      (2 * atan2 (Real.sqrt (haverA latUser lonUser latStation lonStation))
        (Real.sqrt (1 - haverA latUser lonUser latStation lonStation))) *
    0.621371

/-- Distance from the query point to one station, as computed inside the
stationByLocation loop (line 309). -/
noncomputable def stDist (lat lng : ℝ) (s : Station) : ℝ :=
  getDistance lat lng s.gtfs_latitude s.gtfs_longitude

/-- The loop of stationByLocation (lines 307-315).  The state pairs
closestStation with closestDistance; none models the initial empty
object, and a some carries the station together with its distance field.
On an update the distance field receives the old closestDistance (the
source assigns it before overwriting closestDistance with thisDistance). -/
noncomputable def nearLoop (lat lng : ℝ) :
    List Station → Option (Station × ℝ) × ℝ → Option (Station × ℝ) × ℝ
  | [], st => st
  | s :: rest, (best, cd) =>
    nearLoop lat lng rest
      (if stDist lat lng s < cd then (some (s, cd), stDist lat lng s) else (best, cd))

/-- stationByLocation (lines 300-318) with the cache slot explicit: it
faults when the station list was never loaded (line 301 reads .station of
undefined), otherwise runs the loop from the 999999.9 sentinel and calls
back with a null error. -/
noncomputable def stationByLocation (slot : Option StationList) (lat lng : ℝ) :
    JsOutcome (Option (Station × ℝ)) :=
  match slot with
  | none => .fault
  | some sl => .calledBack none (nearLoop lat lng sl.station (none, 999999.9)).1

/-- getStations (lines 269-272) with the cache slot explicit: it faults
when the station list was never loaded, otherwise calls back with the
cached array and a null error. -/
def getStations (slot : Option StationList) : JsOutcome (List Station) :=
  match slot with
  | none => .fault
  | some sl => .calledBack none sl.station

/-- The running minimum maintained by the stationByLocation loop: the
least distance over the list, folded from the 999999.9 sentinel. -/
noncomputable def minDistFold (lat lng : ℝ) (l : List Station) : ℝ :=
  l.foldl (fun d s => min d (stDist lat lng s)) 999999.9

/-- getStationName (lines 82-94): linear scan of the station list, the
first abbreviation match wins, undefined otherwise. -/
def getStationName (stations : List Station) (abbr : String) : Option String :=
  match stations with
  | [] => none
  | s :: rest => if s.abbr = abbr then some s.name else getStationName rest abbr

/-- Specification-side lookup, following the spec wording for
stationName: the display name of the first station whose abbreviation
equals the argument, or NotFound. -/
def stationNameSpec (stations : List Station) (abbr : String) : Option String :=
  (stations.find? (fun s => s.abbr == abbr)).map (fun s => s.name)

/-- One per-station record pushed by a fan-out batch, that is
res.root.stations.station of a station detail response: the station name
plus the rest of the payload. -/
structure Detail where
  name : String
  payload : String
deriving DecidableEq

/-- Ordering used by the final sort of a fan-out batch: _.sortBy on the
name field (lines 198 and 225). -/
def detailLe (a b : Detail) : Prop := a.name ≤ b.name

instance : DecidableRel detailLe := fun a b => inferInstanceAs (Decidable (a.name ≤ b.name))

instance : IsTotal Detail detailLe := ⟨fun a b => le_total a.name b.name⟩

instance : IsTrans Detail detailLe := ⟨fun _ _ _ hab hbc => le_trans hab hbc⟩

/-- Completion of a fan-out batch (lines 197-201 and 224-228): the pushed
records are sorted by station name before the cache slot is replaced. -/
def fanOutAggregate (pushed : List Detail) : List Detail :=
  List.insertionSort detailLe pushed

/-- Effect of one fan-out batch on its cache slot.  When every
per-station fetch succeeds, each per-item handler pushes one record and
the fan-in barrier stores the sorted aggregate.  When any fetch fails,
that handler faults before invoking its async callback (it reads
res.root of an undefined parse result), so the barrier never fires and
the slot keeps its previous snapshot (lines 178-229). -/
def fanOutSlotUpdate (prev : Option (List Detail)) (results : List (Option Detail)) :
    Option (List Detail) :=
  if results.all Option.isSome then some (fanOutAggregate (results.filterMap id)) else prev

/-- Replace the first occurrence of pat by rep: JavaScript
String.prototype.replace with a string pattern (line 151). -/
def replaceFirst (pat rep : List Char) : List Char → List Char
  | [] => []
  | c :: rest =>
    if (c :: rest).take pat.length = pat then rep ++ (c :: rest).drop pat.length
    else c :: replaceFirst pat rep rest

/-- Fuel-indexed left-to-right replacement of every occurrence of pat by
rep.  Each step consumes at least one character of the scanned list, so
any fuel of at least the list length computes the replacement in full. -/
def replaceAllFuel (pat rep : List Char) : Nat → List Char → List Char
  | 0, l => l
  | _ + 1, [] => []
  | fuel + 1, c :: rest =>
    if 0 < pat.length ∧ (c :: rest).take pat.length = pat then
      rep ++ replaceAllFuel pat rep fuel ((c :: rest).drop pat.length)
    else c :: replaceAllFuel pat rep fuel rest

/-- Replace every occurrence of pat by rep, scanning left to right:
JavaScript body.split(pat).join(rep) (lines 187 and 213). -/
def replaceAll (pat rep : List Char) (l : List Char) : List Char :=
  replaceAllFuel pat rep l.length l

/-- Substring test: JavaScript indexOf(pat) > -1 (lines 184 and 210). -/
def containsSub (pat : List Char) : List Char → Bool
  | [] => pat.isEmpty
  | c :: rest => ((c :: rest).take pat.length == pat) || containsSub pat rest

/-- The mis-reported upstream station name. -/
def rawName : List Char := "Coliseum/Oakland Airport".toList

/-- The corrected canonical station name. -/
def canonicalName : List Char := "Coliseum".toList

/-- Body normalization in loadStationList (line 151): the first
occurrence of the raw name is replaced. -/
def stationListNormalize (body : List Char) : List Char :=
  replaceFirst rawName canonicalName body

/-- Body normalization in the fan-out fetch handlers (lines 184-188 and
210-214): every occurrence is replaced, but only when the request URL
mentions COLS. -/
def stationDetailNormalize (url body : List Char) : List Char :=
  if containsSub ("COLS".toList) url then replaceAll rawName canonicalName body else body

/-- Body handling in loadElevatorStatus (lines 120-132): the payload is
parsed and stored with no station-name correction at all. -/
def elevatorNormalize (body : List Char) : List Char := body

/-- The station-info request URL built for the COLS station (line 174). -/
def colsInfoURL : List Char := "stn.aspx?cmd=stninfo&orig=COLS".toList

/-- The bsa field of a parsed service-announcement payload: with
explicitArray false, a single announcement arrives as a bare element and
several arrive wrapped in an array. -/
inductive BsaField (α : Type) where
  | single (e : α)
  | array (l : List α)

/-- The parsed payload root handed to the callback. -/
structure BsaRoot (α : Type) where
  bsa : BsaField α

/-- getServiceAnnouncements normalization (lines 248-257): a bare bsa
element is wrapped into a one-element array before the root reaches the
callback. -/
def getServiceAnnouncements {α : Type} (r : BsaRoot α) : BsaRoot α :=
  match r.bsa with
  | .single e => ⟨.array [e]⟩
  | .array l => ⟨.array l⟩

/-- Timestamp model for new Date of dateStr plus timeStr: the day index
of the date part and the minutes of day of the time part determine the
milliseconds since the epoch.  The BART schedule fields carry minute
granularity. -/
def jsDateMs (day minOfDay : ℤ) : ℤ := (day * 1440 + minOfDay) * 60000

/-- The parsed schedule trip timing fields origTimeDate, origTimeMin,
destTimeDate and destTimeMin, in the timestamp model. -/
structure TripTimes where
  origDay : ℤ
  origMin : ℤ
  destDay : ℤ
  destMin : ℤ

/-- Trip duration computed by getConnectionData (lines 353-356):
(endDate - startDate) / 60000, with JavaScript number division modelled
exactly over the rationals. -/
def tripDuration (t : TripTimes) : ℚ :=
  ((jsDateMs t.destDay t.destMin - jsDateMs t.origDay t.origMin : ℤ) : ℚ) / 60000

/-- Taking at most the length of the left part of an append only reads
the left part. -/
theorem take_append_of_le : ∀ (n : Nat) (a t : List Char), n ≤ a.length →
    (a ++ t).take n = a.take n := by
  intro n
  induction n with
  | zero => intro a t _; rfl
  | succ m ih =>
    intro a t h
    cases a with
    | nil => simp at h
    | cons x a2 =>
      have h2 : m ≤ a2.length := by
        simp only [List.length_cons] at h
        omega
      rw [List.cons_append, List.take_succ_cons, List.take_succ_cons, ih a2 t h2]

/-- Reading a pattern-length window that starts inside a nonempty prefix
sees the same characters whether the text continues with the full pattern
plus a suffix or with the pattern minus its last character: occurrences
starting before the prefix end cannot tell the two texts apart. -/
theorem take_straddle_eq (pat : List Char) (hpat : pat ≠ []) (pre suf : List Char)
    (hlen : 0 < pre.length) :
    (pre ++ (pat ++ suf)).take pat.length = (pre ++ pat.dropLast).take pat.length := by
  obtain ⟨D, x, hDx⟩ : ∃ D x, pat = D ++ [x] :=
    ⟨pat.dropLast, pat.getLast hpat, (List.dropLast_append_getLast hpat).symm⟩
  subst hDx
  rw [List.dropLast_concat]
  have h2 : pre ++ ((D ++ [x]) ++ suf) = (pre ++ D) ++ ([x] ++ suf) := by
    simp [List.append_assoc]
  rw [h2]
  have hle : (D ++ [x]).length ≤ (pre ++ D).length := by
    simp only [List.length_append, List.length_cons, List.length_nil]
    omega
  rw [take_append_of_le _ _ _ hle]

/-- First-occurrence replacement semantics: on a text that decomposes as
pre ++ pat ++ suf with no occurrence of pat starting inside pre, the
scan of replaceFirst copies pre, replaces that occurrence of pat by rep
and keeps suf unchanged. -/
theorem replaceFirst_decompose (pat rep : List Char) (hpat : pat ≠ []) :
    ∀ (pre suf : List Char), containsSub pat (pre ++ pat.dropLast) = false →
      replaceFirst pat rep (pre ++ (pat ++ suf)) = pre ++ (rep ++ suf) := by
  intro pre
  induction pre with
  | nil =>
    intro suf _
    rw [List.nil_append, List.nil_append]
    cases pat with
    | nil => exact absurd rfl hpat
    | cons p pt =>
      rw [List.cons_append, replaceFirst]
      have hyes : (p :: (pt ++ suf)).take (p :: pt).length = p :: pt := by
        rw [← List.cons_append, take_append_of_le _ _ _ (Nat.le_refl _), List.take_length]
      rw [if_pos hyes]
      congr 1
      rw [← List.cons_append]
      exact List.drop_left _ _
  | cons c pre2 ih =>
    intro suf hpre
    rw [List.cons_append] at hpre
    rw [containsSub] at hpre
    obtain ⟨hb, hrest⟩ := Bool.or_eq_false_iff.mp hpre
    have heq := take_straddle_eq pat hpat (c :: pre2) suf (by simp)
    rw [List.cons_append, List.cons_append] at heq
    rw [List.cons_append, replaceFirst]
    have hne : ¬(c :: (pre2 ++ (pat ++ suf))).take pat.length = pat := by
      intro hcon
      rw [heq] at hcon
      rw [hcon] at hb
      simp at hb
    rw [if_neg hne]
    rw [List.cons_append]
    congr 1
    exact ih suf hrest

/-- The fuel-indexed replacement does not depend on the fuel once the
fuel covers the list length. -/
theorem replaceAllFuel_congr (pat rep : List Char) :
    ∀ (f1 f2 : Nat) (l : List Char), l.length ≤ f1 → l.length ≤ f2 →
      replaceAllFuel pat rep f1 l = replaceAllFuel pat rep f2 l := by
  intro f1
  induction f1 with
  | zero =>
    intro f2 l h1 _
    have hl : l = [] := List.length_eq_zero.mp (Nat.le_zero.mp h1)
    subst hl
    cases f2 with
    | zero => rfl
    | succ g => rfl
  | succ f ih =>
    intro f2 l h1 h2
    cases l with
    | nil =>
      cases f2 with
      | zero => rfl
      | succ g => rfl
    | cons c rest =>
      cases f2 with
      | zero =>
        exfalso
        simp only [List.length_cons] at h2
        omega
      | succ g =>
        rw [replaceAllFuel, replaceAllFuel]
        by_cases hm : 0 < pat.length ∧ (c :: rest).take pat.length = pat
        · obtain ⟨hp1, hp2⟩ := hm
          rw [if_pos ⟨hp1, hp2⟩, if_pos ⟨hp1, hp2⟩]
          congr 1
          apply ih
          · rw [List.length_drop]
            simp only [List.length_cons] at h1 ⊢
            omega
          · rw [List.length_drop]
            simp only [List.length_cons] at h2 ⊢
            omega
        · rw [if_neg hm, if_neg hm]
          congr 1
          apply ih
          · simp only [List.length_cons] at h1
            omega
          · simp only [List.length_cons] at h2
            omega

/-- Fuel-level replacement semantics for the leftmost occurrence: with
enough fuel, the scan copies the occurrence-free prefix, replaces the
occurrence and continues on the suffix alone. -/
theorem replaceAllFuel_decompose (pat rep : List Char) (hpat : pat ≠ []) :
    ∀ (pre : List Char) (fuel : Nat) (suf : List Char),
      (pre ++ (pat ++ suf)).length ≤ fuel →
      containsSub pat (pre ++ pat.dropLast) = false →
      replaceAllFuel pat rep fuel (pre ++ (pat ++ suf)) =
        pre ++ (rep ++ replaceAll pat rep suf) := by
  intro pre
  induction pre with
  | nil =>
    intro fuel suf hfuel _
    rw [List.nil_append] at hfuel
    rw [List.nil_append, List.nil_append]
    cases pat with
    | nil => exact absurd rfl hpat
    | cons p pt =>
      cases fuel with
      | zero =>
        exfalso
        simp only [List.cons_append, List.length_cons] at hfuel
        omega
      | succ f =>
        rw [List.cons_append, replaceAllFuel]
        have hyes : 0 < (p :: pt).length ∧
            (p :: (pt ++ suf)).take (p :: pt).length = p :: pt := by
          refine ⟨by simp, ?_⟩
          rw [← List.cons_append, take_append_of_le _ _ _ (Nat.le_refl _), List.take_length]
        rw [if_pos hyes]
        congr 1
        have hdrop : (p :: (pt ++ suf)).drop (p :: pt).length = suf := by
          rw [← List.cons_append]
          exact List.drop_left _ _
        rw [hdrop, replaceAll]
        apply replaceAllFuel_congr
        · simp only [List.cons_append, List.length_cons, List.length_append] at hfuel
          omega
        · exact Nat.le_refl _
  | cons c pre2 ih =>
    intro fuel suf hfuel hpre
    rw [List.cons_append] at hpre
    rw [containsSub] at hpre
    obtain ⟨hb, hrest⟩ := Bool.or_eq_false_iff.mp hpre
    cases fuel with
    | zero =>
      exfalso
      simp only [List.cons_append, List.length_cons] at hfuel
      omega
    | succ f =>
      have heq := take_straddle_eq pat hpat (c :: pre2) suf (by simp)
      rw [List.cons_append, List.cons_append] at heq
      rw [List.cons_append, replaceAllFuel]
      have hne : ¬(0 < pat.length ∧ (c :: (pre2 ++ (pat ++ suf))).take pat.length = pat) := by
        intro hcon
        rw [heq] at hcon
        rw [hcon.2] at hb
        simp at hb
      rw [if_neg hne]
      rw [List.cons_append]
      congr 1
      apply ih f suf ?_ hrest
      simp only [List.cons_append, List.length_cons] at hfuel
      omega

/-- Replacement semantics of split-and-join: on a text that decomposes as
pre ++ pat ++ suf with no occurrence of pat starting inside pre, the
replacement copies pre, replaces that occurrence of pat by rep and then
processes suf on its own, so every later occurrence is replaced too. -/
theorem replaceAll_decompose (pat rep : List Char) (hpat : pat ≠ []) (pre suf : List Char)
    (hpre : containsSub pat (pre ++ pat.dropLast) = false) :
    replaceAll pat rep (pre ++ (pat ++ suf)) = pre ++ (rep ++ replaceAll pat rep suf) := by
  rw [replaceAll]
  exact replaceAllFuel_decompose pat rep hpat pre (pre ++ (pat ++ suf)).length suf
    (Nat.le_refl _) hpre

/-- C5 (amended): on a payload whose leftmost occurrence of the raw name
Coliseum/Oakland Airport sits after an occurrence-free prefix, the
station-list normalization replaces that first occurrence with the
canonical name Coliseum, the station-detail normalization for a COLS
request replaces it and processes the rest of the payload for the
remaining occurrences, the station-detail normalization for every request
URL not mentioning COLS leaves the payload unchanged, and the
elevator-status path leaves the payload unchanged. -/
theorem coliseum_correction_amended (pre suf : List Char)
    (hpre : containsSub rawName (pre ++ rawName.dropLast) = false) :
    stationListNormalize (pre ++ (rawName ++ suf)) = pre ++ (canonicalName ++ suf) ∧
      stationDetailNormalize colsInfoURL (pre ++ (rawName ++ suf)) =
        pre ++ (canonicalName ++ replaceAll rawName canonicalName suf) ∧
      (∀ url, containsSub ("COLS".toList) url = false →
        stationDetailNormalize url (pre ++ (rawName ++ suf)) = pre ++ (rawName ++ suf)) ∧
      elevatorNormalize (pre ++ (rawName ++ suf)) = pre ++ (rawName ++ suf) := by
  refine ⟨?_, ?_, ?_, rfl⟩
  · exact replaceFirst_decompose rawName canonicalName (by decide) pre suf hpre
  · rw [stationDetailNormalize,
      if_pos (by decide : containsSub ("COLS".toList) colsInfoURL = true)]
    exact replaceAll_decompose rawName canonicalName (by decide) pre suf hpre
  · intro url hurl
    have hnc : ¬containsSub ("COLS".toList) url = true := by
      rw [hurl]
      simp
    rw [stationDetailNormalize, if_neg hnc]

/-- C5 witness: the amended correction property at a concrete payload
whose raw combined name follows the occurrence-free prefix of an XML
wrapper. -/
theorem coliseum_correction_amended_witness :
    (containsSub rawName ("<stations>".toList ++ rawName.dropLast) = false) ∧
      (stationListNormalize ("<stations>".toList ++ (rawName ++ "</stations>".toList)) =
          "<stations>".toList ++ (canonicalName ++ "</stations>".toList) ∧
        stationDetailNormalize colsInfoURL
            ("<stations>".toList ++ (rawName ++ "</stations>".toList)) =
          "<stations>".toList ++
            (canonicalName ++ replaceAll rawName canonicalName ("</stations>".toList)) ∧
        (∀ url, containsSub ("COLS".toList) url = false →
          stationDetailNormalize url
              ("<stations>".toList ++ (rawName ++ "</stations>".toList)) =
            "<stations>".toList ++ (rawName ++ "</stations>".toList)) ∧
        elevatorNormalize ("<stations>".toList ++ (rawName ++ "</stations>".toList)) =
          "<stations>".toList ++ (rawName ++ "</stations>".toList)) :=
  ⟨by decide, coliseum_correction_amended _ _ (by decide)⟩

/-- C5 counterexample: an elevator-status payload carrying the raw
combined name is stored unchanged, differing from its name-corrected
form, and a station-detail fetch whose request URL targets DALY rather
than COLS also leaves its payload with the raw name unreplaced, so the
correction reaches neither every slot nor every detail fetch. -/
theorem elevator_slot_skips_name_correction :
    elevatorNormalize ("Coliseum/Oakland Airport elevator out of service".toList) =
        "Coliseum/Oakland Airport elevator out of service".toList ∧
      containsSub rawName
        (elevatorNormalize ("Coliseum/Oakland Airport elevator out of service".toList)) =
          true ∧
      elevatorNormalize ("Coliseum/Oakland Airport elevator out of service".toList) ≠
        replaceAll rawName canonicalName
          ("Coliseum/Oakland Airport elevator out of service".toList) ∧
      stationDetailNormalize ("stn.aspx?cmd=stnaccess&orig=DALY".toList)
          ("<name>Coliseum/Oakland Airport</name>".toList) =
        "<name>Coliseum/Oakland Airport</name>".toList ∧
      containsSub rawName
        (stationDetailNormalize ("stn.aspx?cmd=stnaccess&orig=DALY".toList)
          ("<name>Coliseum/Oakland Airport</name>".toList)) = true :=
  ⟨rfl, by decide, by decide, by decide, by decide⟩

/-- C9: getStationName is a linear lookup by abbreviation: it agrees with
the first-match specification over the snapshot, and it returns none
exactly when no station in the snapshot carries the requested
abbreviation. -/
theorem getStationName_linear_lookup (l : List Station) (a : String) :
    getStationName l a = stationNameSpec l a ∧
      (getStationName l a).isNone = l.all (fun s => !(s.abbr == a)) := by
  induction l with
  | nil => exact ⟨rfl, rfl⟩
  | cons s rest ih =>
    by_cases hs : s.abbr = a
    · constructor
      · simp [getStationName, stationNameSpec, hs]
      · simp [getStationName, hs]
    · have hb : (s.abbr == a) = false := by simp [hs]
      constructor
      · simpa [getStationName, stationNameSpec, hs, hb] using ih.1
      · simpa [getStationName, hs, hb] using ih.2

/-- C6: a service-announcement payload whose bsa field is a bare element
is returned as a one-element array, and the returned bsa field is always
an array, never a bare element. -/
theorem serviceAnnouncements_single_wrapped :
    ∀ (α : Type) (e : α) (r : BsaRoot α),
      (getServiceAnnouncements (⟨BsaField.single e⟩ : BsaRoot α)).bsa = BsaField.array [e] ∧
        ∃ l, (getServiceAnnouncements r).bsa = BsaField.array l := by
  intro α e r
  refine ⟨rfl, ?_⟩
  cases r with
  | mk b =>
    cases b with
    | single x => exact ⟨[x], rfl⟩
    | array l => exact ⟨l, rfl⟩

/-- C7: the computed trip duration is the difference in minutes between
the parsed departure and arrival timestamps, and a leg departing 08:00
and arriving 08:35 on the same date yields 35 minutes. -/
theorem tripDuration_minutes :
    (∀ t : TripTimes,
        tripDuration t = (((t.destDay - t.origDay) * 1440 + (t.destMin - t.origMin) : ℤ) : ℚ)) ∧
      tripDuration ⟨0, 8 * 60, 0, 8 * 60 + 35⟩ = 35 := by
  constructor
  · intro t
    rw [tripDuration, jsDateMs, jsDateMs]
    push_cast
    field_simp
    ring
  · norm_num [tripDuration, jsDateMs]

/-- C2 (code behavior): called before the first successful refresh, the
cached-data queries fault with a TypeError instead of returning any
result, NotReadyError included. -/
theorem cachedQueries_fault_before_refresh :
    getStations none = JsOutcome.fault ∧
      stationByLocation none 0 0 = JsOutcome.fault ∧
      ∀ (e : Option String) (v : List Station), getStations none ≠ JsOutcome.calledBack e v :=
  ⟨rfl, rfl, fun _ _ h => JsOutcome.noConfusion h⟩

/-- C4: when some per-station fetch in a fan-out batch fails, the cache
slot keeps its previous snapshot untouched. -/
theorem fanOut_failure_keeps_previous_snapshot (prev : Option (List Detail))
    (results : List (Option Detail)) (h : ∃ r ∈ results, r = none) :
    fanOutSlotUpdate prev results = prev := by
  have hneg : ¬results.all Option.isSome = true := by
    intro hall
    obtain ⟨r, hr, rfl⟩ := h
    have h2 := List.all_eq_true.mp hall none hr
    simp at h2
  rw [fanOutSlotUpdate, if_neg hneg]

/-- C4 witness: a concrete batch with one failed fetch leaves a concrete
previous snapshot in place. -/
theorem fanOut_failure_keeps_previous_snapshot_witness :
    (∃ r ∈ [(none : Option Detail)], r = none) ∧
      fanOutSlotUpdate (some [⟨"Powell St.", "addr"⟩]) [(none : Option Detail)] =
        some [⟨"Powell St.", "addr"⟩] :=
  ⟨⟨none, by simp, rfl⟩,
    fanOut_failure_keeps_previous_snapshot _ _ ⟨none, by simp, rfl⟩⟩

/-- C3: when both fan-out batches complete over the station list read at
fan-out time, each aggregate is a permutation of the per-station fetched
records, hence contains exactly one entry per station, and each aggregate
is sorted by station name. -/
theorem fanOut_aggregate_one_entry_sorted (stations : List Station)
    (fetchInfo fetchAccess : Station → Detail) (pushedInfo pushedAccess : List Detail)
    (hInfo : pushedInfo.Perm (stations.map fetchInfo))
    (hAccess : pushedAccess.Perm (stations.map fetchAccess)) :
    (fanOutAggregate pushedInfo).Perm (stations.map fetchInfo) ∧
      List.Sorted detailLe (fanOutAggregate pushedInfo) ∧
      (fanOutAggregate pushedAccess).Perm (stations.map fetchAccess) ∧
      List.Sorted detailLe (fanOutAggregate pushedAccess) :=
  ⟨(List.perm_insertionSort detailLe pushedInfo).trans hInfo,
    List.sorted_insertionSort detailLe pushedInfo,
    (List.perm_insertionSort detailLe pushedAccess).trans hAccess,
    List.sorted_insertionSort detailLe pushedAccess⟩

/-- C3 witness: the aggregate property holds on a concrete refreshed
station list with concrete per-station responses. -/
theorem fanOut_aggregate_one_entry_sorted_witness :
    (([⟨"Ashby", "info"⟩] : List Detail).Perm
        (([⟨"ASHB", "Ashby", 37, -122⟩] : List Station).map
          (fun s => (⟨s.name, "info"⟩ : Detail)))) ∧
      ((fanOutAggregate [⟨"Ashby", "info"⟩]).Perm
          (([⟨"ASHB", "Ashby", 37, -122⟩] : List Station).map
            (fun s => (⟨s.name, "info"⟩ : Detail))) ∧
        List.Sorted detailLe (fanOutAggregate [⟨"Ashby", "info"⟩]) ∧
        (fanOutAggregate [⟨"Ashby", "access"⟩]).Perm
          (([⟨"ASHB", "Ashby", 37, -122⟩] : List Station).map
            (fun s => (⟨s.name, "access"⟩ : Detail))) ∧
        List.Sorted detailLe (fanOutAggregate [⟨"Ashby", "access"⟩])) :=
  ⟨List.Perm.refl _,
    fanOut_aggregate_one_entry_sorted [⟨"ASHB", "Ashby", 37, -122⟩]
      (fun s => ⟨s.name, "info"⟩) (fun s => ⟨s.name, "access"⟩)
      [⟨"Ashby", "info"⟩] [⟨"Ashby", "access"⟩] (List.Perm.refl _) (List.Perm.refl _)⟩

/-- For nonnegative arguments, Math.atan2 lies in the closed first
quadrant range. -/
theorem atan2_nonneg_bounds (y x : ℝ) (hy : 0 ≤ y) (hx : 0 ≤ x) :
    0 ≤ atan2 y x ∧ atan2 y x ≤ Real.pi / 2 := by
  rw [atan2]
  by_cases hxp : 0 < x
  · rw [if_pos hxp]
    constructor
    · have hq : (0 : ℝ) ≤ y / x := div_nonneg hy hx
      calc (0 : ℝ) = Real.arctan 0 := Real.arctan_zero.symm
        _ ≤ Real.arctan (y / x) := Real.arctan_strictMono.monotone hq
    · exact le_of_lt (Real.arctan_lt_pi_div_two _)
  · rw [if_neg hxp]
    have hx0 : x = 0 := le_antisymm (not_lt.mp hxp) hx
    have hc1 : ¬(x < 0 ∧ 0 ≤ y) := fun hc => absurd (hx0 ▸ hc.1) (lt_irrefl 0)
    rw [if_neg hc1]
    have hc2 : ¬x < 0 := by rw [hx0]; exact lt_irrefl 0
    rw [if_neg hc2]
    by_cases hyp : 0 < y
    · rw [if_pos hyp]
      exact ⟨Real.pi_div_two_pos.le, le_refl _⟩
    · rw [if_neg hyp]
      have hc3 : ¬y < 0 := not_lt.mpr hy
      rw [if_neg hc3]
      exact ⟨le_refl 0, Real.pi_div_two_pos.le⟩

/-- Every value of getDistance is strictly below the 999999.9 sentinel
used by stationByLocation: the central angle is at most pi, so the
distance is at most 6371 times pi times 0.621371 miles. -/
theorem getDistance_lt_sentinel (latUser lonUser latStation lonStation : ℝ) :
    getDistance latUser lonUser latStation lonStation < 999999.9 := by
  rw [getDistance]
  obtain ⟨h0, h2⟩ :=
    atan2_nonneg_bounds (Real.sqrt (haverA latUser lonUser latStation lonStation))
      (Real.sqrt (1 - haverA latUser lonUser latStation lonStation))
      (Real.sqrt_nonneg _) (Real.sqrt_nonneg _)
  have ht : atan2 (Real.sqrt (haverA latUser lonUser latStation lonStation))
      (Real.sqrt (1 - haverA latUser lonUser latStation lonStation)) ≤ 2 := by
    have hpi : Real.pi ≤ 4 := Real.pi_le_four
    linarith
  linarith

/-- The haversine intermediate value at the equator is invariant under
negating the longitude difference. -/
theorem haverA_east_west : haverA 0 0 0 (-1) = haverA 0 0 0 1 := by
  simp only [haverA, toRad]
  have h1 : (-1 - 0 : ℝ) * (Real.pi / 180) / 2 = -((1 - 0) * (Real.pi / 180) / 2) := by ring
  rw [h1, Real.sin_neg]
  ring

/-- getDistance at the equator is invariant under negating the longitude
difference. -/
theorem getDistance_east_west : getDistance 0 0 0 (-1) = getDistance 0 0 0 1 := by
  simp only [getDistance]
  rw [haverA_east_west]

/-- The closestDistance component of the stationByLocation loop is the
fold of min over the station distances. -/
theorem nearLoop_snd (lat lng : ℝ) :
    ∀ (l : List Station) (b : Option (Station × ℝ)) (cd : ℝ),
      (nearLoop lat lng l (b, cd)).2 =
        l.foldl (fun d s => min d (stDist lat lng s)) cd := by
  intro l
  induction l with
  | nil => intro b cd; rfl
  | cons s rest ih =>
    intro b cd
    rw [nearLoop, List.foldl_cons]
    by_cases hm : stDist lat lng s < cd
    · rw [if_pos hm, ih, min_eq_right (le_of_lt hm)]
    · rw [if_neg hm, ih, min_eq_left (not_lt.mp hm)]

/-- Once the loop state holds a station, it keeps holding one. -/
theorem nearLoop_some (lat lng : ℝ) :
    ∀ (l : List Station) (p : Station × ℝ) (cd : ℝ),
      ∃ q, (nearLoop lat lng l (some p, cd)).1 = some q := by
  intro l
  induction l with
  | nil => intro p cd; exact ⟨p, rfl⟩
  | cons s rest ih =>
    intro p cd
    rw [nearLoop]
    by_cases hm : stDist lat lng s < cd
    · rw [if_pos hm]; exact ih _ _
    · rw [if_neg hm]; exact ih _ _

/-- The loop result station either is the initial state or comes from the
list. -/
theorem nearLoop_mem (lat lng : ℝ) :
    ∀ (l : List Station) (b : Option (Station × ℝ)) (cd : ℝ),
      (nearLoop lat lng l (b, cd)).1 = b ∨
        ∃ s ∈ l, ∃ r, (nearLoop lat lng l (b, cd)).1 = some (s, r) := by
  intro l
  induction l with
  | nil => intro b cd; exact Or.inl rfl
  | cons s rest ih =>
    intro b cd
    rw [nearLoop]
    by_cases hm : stDist lat lng s < cd
    · rw [if_pos hm]
      rcases ih (some (s, cd)) (stDist lat lng s) with h | h
      · exact Or.inr ⟨s, List.mem_cons_self s rest, cd, h⟩
      · obtain ⟨s2, hs2, r, hr⟩ := h
        exact Or.inr ⟨s2, List.mem_cons_of_mem s hs2, r, hr⟩
    · rw [if_neg hm]
      rcases ih b cd with h | h
      · exact Or.inl h
      · obtain ⟨s2, hs2, r, hr⟩ := h
        exact Or.inr ⟨s2, List.mem_cons_of_mem s hs2, r, hr⟩

/-- If every station recorded in the state has its distance equal to the
running closestDistance, the final recorded station has its distance
equal to the final closestDistance. -/
theorem nearLoop_achieves (lat lng : ℝ) :
    ∀ (l : List Station) (b : Option (Station × ℝ)) (cd : ℝ),
      (∀ p, b = some p → stDist lat lng p.1 = cd) →
      ∀ p, (nearLoop lat lng l (b, cd)).1 = some p →
        stDist lat lng p.1 = (nearLoop lat lng l (b, cd)).2 := by
  intro l
  induction l with
  | nil =>
    intro b cd hinv p hp
    exact hinv p hp
  | cons s rest ih =>
    intro b cd hinv p hp
    rw [nearLoop] at hp ⊢
    by_cases hm : stDist lat lng s < cd
    · rw [if_pos hm] at hp ⊢
      refine ih _ _ ?_ p hp
      intro q hq
      have hq2 := Option.some_inj.mp hq
      rw [← hq2]
    · rw [if_neg hm] at hp ⊢
      exact ih b cd hinv p hp

/-- On a nonempty station list the loop run from the sentinel returns a
station of the list whose distance is the least distance over the list. -/
theorem nearLoop_run_nonempty (lat lng : ℝ) (l : List Station) (hne : l ≠ []) :
    ∃ s r, (nearLoop lat lng l (none, 999999.9)).1 = some (s, r) ∧ s ∈ l ∧
      stDist lat lng s = minDistFold lat lng l := by
  cases l with
  | nil => exact absurd rfl hne
  | cons s0 rest =>
    have hlt : stDist lat lng s0 < 999999.9 := by
      rw [stDist]
      exact getDistance_lt_sentinel _ _ _ _
    have hstep : nearLoop lat lng (s0 :: rest) (none, 999999.9) =
        nearLoop lat lng rest (some (s0, 999999.9), stDist lat lng s0) := by
      rw [nearLoop, if_pos hlt]
    obtain ⟨q, hq⟩ := nearLoop_some lat lng rest (s0, 999999.9) (stDist lat lng s0)
    have hinv : ∀ p : Station × ℝ, (some (s0, (999999.9 : ℝ))) = some p →
        stDist lat lng p.1 = stDist lat lng s0 := by
      intro p hp
      have hp2 := Option.some_inj.mp hp
      rw [← hp2]
    have hach := nearLoop_achieves lat lng rest (some (s0, 999999.9)) (stDist lat lng s0)
      hinv q hq
    have hmin : (nearLoop lat lng rest (some (s0, (999999.9 : ℝ)), stDist lat lng s0)).2 =
        minDistFold lat lng (s0 :: rest) := by
      rw [nearLoop_snd, minDistFold, List.foldl_cons, min_eq_right (le_of_lt hlt)]
    have hmem : q.1 ∈ s0 :: rest := by
      rcases nearLoop_mem lat lng rest (some (s0, 999999.9)) (stDist lat lng s0) with h | h
      · rw [hq] at h
        have hq2 : q = (s0, (999999.9 : ℝ)) := Option.some_inj.mp h
        rw [hq2]
        exact List.mem_cons_self s0 rest
      · obtain ⟨s2, hs2, r, hr⟩ := h
        rw [hq] at hr
        have hq2 : q = (s2, r) := Option.some_inj.mp hr
        rw [hq2]
        exact List.mem_cons_of_mem s0 hs2
    refine ⟨q.1, q.2, ?_, hmem, ?_⟩
    · rw [hstep, hq]
    · rw [hach, hmin]

/-- C10: on a nonempty cached station list, stationByLocation calls back
with a null error and a station drawn from the list: the empty-object
branch is unreachable because every haversine distance in miles is
strictly below the 999999.9 sentinel. -/
theorem stationByLocation_total_nonempty (lat lng : ℝ) (sl : StationList)
    (hne : sl.station ≠ []) :
    ∃ s r, stationByLocation (some sl) lat lng = JsOutcome.calledBack none (some (s, r)) ∧
      s ∈ sl.station := by
  obtain ⟨s, r, h1, h2, _⟩ := nearLoop_run_nonempty lat lng sl.station hne
  refine ⟨s, r, ?_, h2⟩
  rw [stationByLocation, h1]

/-- C10 witness: the nonempty-list totality property at a concrete
station list and query point. -/
theorem stationByLocation_total_nonempty_witness :
    ((⟨[⟨"ASHB", "Ashby", 37, -122⟩]⟩ : StationList).station ≠ []) ∧
      ∃ s r, stationByLocation (some (⟨[⟨"ASHB", "Ashby", 37, -122⟩]⟩ : StationList)) 0 0 =
          JsOutcome.calledBack none (some (s, r)) ∧
        s ∈ (⟨[⟨"ASHB", "Ashby", 37, -122⟩]⟩ : StationList).station :=
  ⟨by simp, stationByLocation_total_nonempty 0 0 ⟨[⟨"ASHB", "Ashby", 37, -122⟩]⟩ (by simp)⟩

/-- C1 (code behavior at the failing input): with a single cached station
one degree of longitude away, stationByLocation returns that station
paired with the 999999.9 sentinel, the closestDistance of the previous
iteration, while the true minimum distance is strictly smaller. -/
theorem stationByLocation_reports_stale_distance :
    stationByLocation (some ⟨[⟨"ASHB", "Ashby", 0, 1⟩]⟩) 0 0 =
        JsOutcome.calledBack none (some (⟨"ASHB", "Ashby", 0, 1⟩, 999999.9)) ∧
      getDistance 0 0 0 1 < 999999.9 := by
  constructor
  · have hlt : stDist 0 0 (⟨"ASHB", "Ashby", 0, 1⟩ : Station) < 999999.9 := by
      rw [stDist]
      exact getDistance_lt_sentinel _ _ _ _
    rw [stationByLocation, nearLoop, if_pos hlt, nearLoop]
  · exact getDistance_lt_sentinel _ _ _ _

/-- C8 counterexample: two stations equidistant from the query point are
returned in list-order-dependent fashion, so the claimed invariance under
permutation of the cached station list fails on ties. -/
theorem stationByLocation_tie_order_dependent :
    stationByLocation (some ⟨[⟨"A", "StaA", 0, 1⟩, ⟨"B", "StaB", 0, -1⟩]⟩) 0 0 =
        JsOutcome.calledBack none (some (⟨"A", "StaA", 0, 1⟩, 999999.9)) ∧
      stationByLocation (some ⟨[⟨"B", "StaB", 0, -1⟩, ⟨"A", "StaA", 0, 1⟩]⟩) 0 0 =
        JsOutcome.calledBack none (some (⟨"B", "StaB", 0, -1⟩, 999999.9)) ∧
      (⟨"A", "StaA", 0, 1⟩ : Station) ≠ ⟨"B", "StaB", 0, -1⟩ := by
  have hA : stDist 0 0 (⟨"A", "StaA", 0, 1⟩ : Station) = getDistance 0 0 0 1 := rfl
  have hB : stDist 0 0 (⟨"B", "StaB", 0, -1⟩ : Station) = getDistance 0 0 0 (-1) := rfl
  have hEq : getDistance 0 0 0 (-1) = getDistance 0 0 0 1 := getDistance_east_west
  have hlt : getDistance 0 0 0 1 < 999999.9 := getDistance_lt_sentinel 0 0 0 1
  refine ⟨?_, ?_, ?_⟩
  · rw [stationByLocation, nearLoop, hA, if_pos hlt, nearLoop, hB, hEq,
      if_neg (lt_irrefl _), nearLoop]
  · rw [stationByLocation, nearLoop, hB, hEq, if_pos hlt, nearLoop, hA,
      if_neg (lt_irrefl _), nearLoop]
  · intro h
    have habbr : "A" = "B" := congrArg Station.abbr h
    simp at habbr

/-- C8 (amended): over station lists on which the distance map is
injective, the station returned by stationByLocation is the same for any
two permutations of the list, and the least distance over the list, the
true minimum tracked by closestDistance, is permutation-invariant. -/
theorem stationByLocation_perm_invariant (lat lng : ℝ) (l1 l2 : List Station)
    (hne : l1 ≠ []) (hperm : l2.Perm l1)
    (hinj : ∀ a ∈ l1, ∀ b ∈ l1, stDist lat lng a = stDist lat lng b → a = b) :
    (∃ s r1 r2,
        stationByLocation (some ⟨l1⟩) lat lng = JsOutcome.calledBack none (some (s, r1)) ∧
          stationByLocation (some ⟨l2⟩) lat lng = JsOutcome.calledBack none (some (s, r2))) ∧
      minDistFold lat lng l1 = minDistFold lat lng l2 := by
  have hne2 : l2 ≠ [] := by
    intro h
    subst h
    exact hne hperm.symm.eq_nil
  obtain ⟨s1, r1, h11, h12, h13⟩ := nearLoop_run_nonempty lat lng l1 hne
  obtain ⟨s2, r2, h21, h22, h23⟩ := nearLoop_run_nonempty lat lng l2 hne2
  have hmin : minDistFold lat lng l1 = minDistFold lat lng l2 := by
    rw [minDistFold, minDistFold]
    exact hperm.symm.foldl_eq' (fun x _ y _ z => by rw [min_right_comm]) _
  have hd : stDist lat lng s1 = stDist lat lng s2 := by
    rw [h13, hmin, ← h23]
  have hs : s1 = s2 := hinj s1 h12 s2 (hperm.mem_iff.mp h22) hd
  refine ⟨⟨s1, r1, r2, ?_, ?_⟩, hmin⟩
  · rw [stationByLocation]
    dsimp only
    rw [h11]
  · rw [stationByLocation]
    dsimp only
    rw [h21, hs]

/-- C8 witness: the amended permutation-invariance property at a concrete
singleton station list, where the distance map is trivially injective. -/
theorem stationByLocation_perm_invariant_witness :
    (([⟨"ASHB", "Ashby", 37, -122⟩] : List Station) ≠ [] ∧
        ([⟨"ASHB", "Ashby", 37, -122⟩] : List Station).Perm [⟨"ASHB", "Ashby", 37, -122⟩] ∧
        ∀ a ∈ ([⟨"ASHB", "Ashby", 37, -122⟩] : List Station),
          ∀ b ∈ ([⟨"ASHB", "Ashby", 37, -122⟩] : List Station),
            stDist 0 0 a = stDist 0 0 b → a = b) ∧
      ((∃ s r1 r2,
          stationByLocation (some ⟨[⟨"ASHB", "Ashby", 37, -122⟩]⟩) 0 0 =
              JsOutcome.calledBack none (some (s, r1)) ∧
            stationByLocation (some ⟨[⟨"ASHB", "Ashby", 37, -122⟩]⟩) 0 0 =
              JsOutcome.calledBack none (some (s, r2))) ∧
        minDistFold 0 0 [⟨"ASHB", "Ashby", 37, -122⟩] =
          minDistFold 0 0 [⟨"ASHB", "Ashby", 37, -122⟩]) := by
  have hinj : ∀ a ∈ ([⟨"ASHB", "Ashby", 37, -122⟩] : List Station),
      ∀ b ∈ ([⟨"ASHB", "Ashby", 37, -122⟩] : List Station),
        stDist 0 0 a = stDist 0 0 b → a = b := by
    intro a ha b hb _
    rw [List.mem_singleton] at ha hb
    rw [ha, hb]
  exact ⟨⟨by simp, List.Perm.refl _, hinj⟩,
    stationByLocation_perm_invariant 0 0 _ _ (by simp) (List.Perm.refl _) hinj⟩

end BART
